import Mathlib

/-
Verification of the rating reconciliation and scoring engine of the
Bay-area-housing-ranking repository.

Shallow embedding conventions:
- JavaScript numbers are idealized as rationals; NaN is modeled explicitly
  by the type JNum (floating-point rounding is out of scope).
- JSON values stored in feature properties are JVal (number, string, null);
  a missing object property is represented by Option.none.
- JavaScript objects used as dictionaries are modeled as Lean functions
  into Option, updated pointwise exactly as the source assigns keys.
- The scoring functions are translated from the debug front-end module
  (calculateZipcodeScores and the applyFixes replacement of it); the
  GeoJSON feature query is translated from api/server.js.
-/

namespace Housing

/-- A JSON-ish value as it appears in feature properties. -/
inductive JVal where
  | num : ℚ → JVal
  | str : String → JVal
  | null : JVal
deriving DecidableEq, Repr

/-- JavaScript truthiness for the values that occur in this data model
(numbers, strings, null). -/
def jIsTruthy : JVal → Bool
  | JVal.num q => decide (q ≠ 0)
  | JVal.str s => decide (s ≠ "")
  | JVal.null => false

/-- A JavaScript number: either NaN or an (idealized, rational) value. -/
inductive JNum where
  | nan : JNum
  | val : ℚ → JNum
deriving DecidableEq, Repr

/-- JavaScript addition: NaN propagates. -/
def JNum.add : JNum → JNum → JNum
  | JNum.val a, JNum.val b => JNum.val (a + b)
  | _, _ => JNum.nan

/-- JavaScript subtraction: NaN propagates. -/
def JNum.sub : JNum → JNum → JNum
  | JNum.val a, JNum.val b => JNum.val (a - b)
  | _, _ => JNum.nan

/-- Multiplication of a JavaScript number by a plain rational. -/
def JNum.mulQ : JNum → ℚ → JNum
  | JNum.val a, w => JNum.val (a * w)
  | JNum.nan, _ => JNum.nan

/-- Division of a JavaScript number by a plain rational (only ever used
with a positive divisor in the source). -/
def JNum.divQ : JNum → ℚ → JNum
  | JNum.val a, w => JNum.val (a / w)
  | JNum.nan, _ => JNum.nan

/-- Numeric value of a list of decimal digit characters. -/
def digitsVal (cs : List Char) : ℕ :=
  cs.foldl (fun a c => 10 * a + (c.toNat - 48)) 0

/-- Model of the JavaScript parseFloat builtin on strings: skip leading
whitespace, optional sign, then the longest prefix of digits with an
optional fractional part; NaN when no digit is consumed. (Exponent forms
do not occur in the data of this repository and are not modeled.) -/
def parseFloatStr (s : String) : JNum :=
  let cs := s.data.dropWhile (fun c => c = ' ' ∨ c = '\t' ∨ c = '\n' ∨ c = '\r')
  let signed : Bool × List Char :=
    match cs with
    | '-' :: t => (true, t)
    | '+' :: t => (false, t)
    | _ => (false, cs)
  let intPart := signed.2.takeWhile Char.isDigit
  let rest := signed.2.dropWhile Char.isDigit
  let fracPart :=
    match rest with
    | '.' :: t => t.takeWhile Char.isDigit
    | _ => []
  if intPart = [] ∧ fracPart = [] then JNum.nan
  else
    let m : ℚ := (digitsVal intPart : ℚ) + (digitsVal fracPart : ℚ) / ((10 : ℚ) ^ fracPart.length)
    JNum.val (if signed.1 then -m else m)

/-- parseFloat applied to a property value (a number parses to itself,
null stringifies to a non-numeric string, hence NaN). -/
def parseFloatJ : JVal → JNum
  | JVal.num q => JNum.val q
  | JVal.str s => parseFloatStr s
  | JVal.null => JNum.nan

/-- parseFloat applied to a possibly-undefined property
(parseFloat of undefined is NaN). -/
def parseFloatOpt : Option JVal → JNum
  | some v => parseFloatJ v
  | none => JNum.nan

/-- A scoring criterion as supplied by the front-end state. -/
structure Criterion where
  id : String
  weight : ℚ
  invert : Bool
  enabled : Bool
deriving DecidableEq, Repr

/-- The properties object of a GeoJSON feature, as an association list
(JSON object keys are unique). -/
abbrev PropList := List (String × JVal)

/-- A GeoJSON feature as consumed by the scoring code; the properties
object itself may be absent. -/
structure Feature where
  props : Option PropList
deriving DecidableEq, Repr

/-- Truthiness of a possibly-undefined value. -/
def truthyOpt : Option JVal → Bool
  | some v => jIsTruthy v
  | none => false

/-- The zipcode identifier of a feature:
feature.properties.ZIP or feature.properties.ZCTA5CE10 with JavaScript
falsy fallback, and the feature is skipped when the result is falsy. -/
def zipKey (props : PropList) : Option JVal :=
  let a := props.lookup "ZIP"
  if truthyOpt a then a
  else
    let b := props.lookup "ZCTA5CE10"
    if truthyOpt b then b else none

/-- The contributed score of a criterion for a present raw value:
parseFloat, then 10 - score when invert is set (the fixed 0-10 scale). -/
def contribScore (c : Criterion) (v : JVal) : JNum :=
  let s := parseFloatJ v
  if c.invert then (JNum.val 10).sub s else s

/-- The numeric accumulator of the per-feature scoring loop
(totalScore, totalWeight, usedCriteria). -/
structure ScoreAcc where
  totalScore : JNum
  totalWeight : ℚ
  usedCriteria : ℕ
deriving DecidableEq, Repr

/-- One step of the per-criterion loop on the numeric accumulator: a
missing (undefined or null) value is skipped; otherwise the weighted
contributed score is accumulated. The source loop updates the numeric
accumulator and the criteriaScores object independently, so it is split
here into two folds over the same list. -/
def stepNum (props : PropList) (acc : ScoreAcc) (c : Criterion) : ScoreAcc :=
  match props.lookup c.id with
  | none => acc
  | some JVal.null => acc
  | some v =>
      { totalScore := acc.totalScore.add ((contribScore c v).mulQ c.weight)
        totalWeight := acc.totalWeight + c.weight
        usedCriteria := acc.usedCriteria + 1 }

/-- A breakdown entry of the criteriaScores object: either the
value-missing marker (used: false) or the used entry recording
originalValue, inverted, score and weight. -/
inductive CritEntry where
  | missing : CritEntry
  | used : JVal → Bool → JNum → ℚ → CritEntry
deriving DecidableEq, Repr

/-- The breakdown entry written for a criterion. -/
def entryOf (props : PropList) (c : Criterion) : CritEntry :=
  match props.lookup c.id with
  | none => CritEntry.missing
  | some JVal.null => CritEntry.missing
  | some v => CritEntry.used v c.invert (contribScore c v) c.weight

/-- One step of the per-criterion loop on the criteriaScores object. -/
def stepBrk (props : PropList) (m : String → Option CritEntry) (c : Criterion) :
    String → Option CritEntry :=
  fun x => if x = c.id then some (entryOf props c) else m x

/-- The per-unit result of calculateZipcodeScores. The error string of the
zero-weight branch is modeled by the flag hasError. -/
structure ZipScore where
  finalScore : JNum
  criteriaScores : String → Option CritEntry
  totalCriteria : ℕ
  usedCriteria : ℕ
  hasError : Bool

/-- The body of the per-feature loop of calculateZipcodeScores: weighted
average over the used criteria when totalWeight is positive, else the
sentinel result with finalScore 0 and usedCriteria 0. -/
def scoreUnit (active : List Criterion) (props : PropList) : ZipScore :=
  let acc := active.foldl (stepNum props) ⟨JNum.val 0, 0, 0⟩
  let brk := active.foldl (stepBrk props) (fun _ => none)
  if 0 < acc.totalWeight then
    { finalScore := acc.totalScore.divQ acc.totalWeight
      criteriaScores := brk
      totalCriteria := active.length
      usedCriteria := acc.usedCriteria
      hasError := false }
  else
    { finalScore := JNum.val 0
      criteriaScores := brk
      totalCriteria := active.length
      usedCriteria := 0
      hasError := true }

/-- One step of the outer features.forEach: features without a properties
object or without a truthy zipcode identifier are skipped; otherwise the
scores object gains (or overwrites) the entry for that zipcode. -/
def scoreStepFeature (active : List Criterion) (acc : JVal → Option ZipScore)
    (f : Feature) : JVal → Option ZipScore :=
  match f.props with
  | none => acc
  | some props =>
      match zipKey props with
      | none => acc
      | some z => fun x => if x = z then some (scoreUnit active props) else acc x

/-- The primary scoring path (calculateZipcodeScores of the debug module):
empty feature list or empty enabled-criteria list returns the empty scores
object; otherwise each feature with a usable zipcode receives a ZipScore. -/
def calculateZipcodeScores (criteria : List Criterion) (features : List Feature) :
    JVal → Option ZipScore :=
  if features.isEmpty then fun _ => none
  else
    let active := criteria.filter (fun c => c.enabled)
    if active.isEmpty then fun _ => none
    else features.foldl (scoreStepFeature active) (fun _ => none)

/-- The fixed per-criterion value of the applyFixes replacement scorer:
parseFloat of the property (undefined gives NaN), with NaN replaced by the
midpoint default 5. -/
def fixedCritValue (props : PropList) (c : Criterion) : ℚ :=
  match parseFloatOpt (props.lookup c.id) with
  | JNum.val q => q
  | JNum.nan => 5

/-- The numeric accumulator of the applyFixes replacement scorer; every
active criterion is counted (nothing is skipped). -/
structure FixAcc where
  totalScore : ℚ
  totalWeight : ℚ
  usedCriteria : ℕ
deriving DecidableEq, Repr

/-- One step of the per-criterion loop of the applyFixes replacement
scorer. -/
def fixedStepNum (props : PropList) (acc : FixAcc) (c : Criterion) : FixAcc :=
  let value := fixedCritValue props c
  let score := if c.invert then 10 - value else value
  { totalScore := acc.totalScore + score * c.weight
    totalWeight := acc.totalWeight + c.weight
    usedCriteria := acc.usedCriteria + 1 }

/-- The per-unit score of the applyFixes replacement scorer: weighted
average, with the midpoint 5 as the zero-weight default. -/
def fixedScoreUnit (active : List Criterion) (props : PropList) : ℚ :=
  let acc := active.foldl (fixedStepNum props) ⟨0, 0, 0⟩
  if 0 < acc.totalWeight then acc.totalScore / acc.totalWeight else 5

/-- The alternate scoring path installed by applyFixes
(window.calculateZipcodeScores replacement): per zipcode a plain number;
missing or unparseable values are substituted by the midpoint 5 before
averaging. -/
def calculateZipcodeScoresFixed (criteria : List Criterion) (features : List Feature) :
    JVal → Option ℚ :=
  let active := criteria.filter (fun c => c.enabled)
  if active.isEmpty then fun _ => none
  else
    features.foldl
      (fun acc f =>
        match f.props with
        | none => acc
        | some props =>
            match zipKey props with
            | none => acc
            | some z => fun x => if x = z then some (fixedScoreUnit active props) else acc x)
      (fun _ => none)

/-- Whether a criterion has a usable observation on a property list
(the value exists and is not null). -/
def hasValue (props : PropList) (c : Criterion) : Bool :=
  match props.lookup c.id with
  | none => false
  | some JVal.null => false
  | some _ => true

/-- The enabled criteria that had an observation for the unit. -/
def usedList (active : List Criterion) (props : PropList) : List Criterion :=
  active.filter (fun c => hasValue props c)

/-- The contributed score of a criterion looked up on a property list
(only meaningful on criteria that have a value). -/
def contribOf (props : PropList) (c : Criterion) : JNum :=
  match props.lookup c.id with
  | none => JNum.nan
  | some v => contribScore c v

/-- Specification-side weighted sum: the sum of contributed score times
weight over a list of criteria, in JavaScript-number arithmetic. -/
def weightedSum (props : PropList) (l : List Criterion) : JNum :=
  (l.map (fun c => (contribOf props c).mulQ c.weight)).foldr JNum.add (JNum.val 0)

/-- Specification-side weight sum of a list of criteria. -/
def weightSum (l : List Criterion) : ℚ :=
  (l.map (fun c => c.weight)).sum

/-- The features that the scoring loop actually processes, paired with the
zipcode key the source indexes the scores object by. -/
def keyedFeatures (features : List Feature) : List (JVal × PropList) :=
  features.filterMap fun f =>
    match f.props with
    | none => none
    | some props =>
        match zipKey props with
        | none => none
        | some z => some (z, props)

theorem JNum.add_assoc (a b c : JNum) : (a.add b).add c = a.add (b.add c) := by
  cases a <;> cases b <;> cases c <;> simp [JNum.add] <;> ring

theorem JNum.add_comm (a b : JNum) : a.add b = b.add a := by
  cases a <;> cases b <;> simp [JNum.add] <;> ring

theorem JNum.add_valzero (a : JNum) : a.add (JNum.val 0) = a := by
  cases a <;> simp [JNum.add]

theorem JNum.valzero_add (a : JNum) : (JNum.val 0).add a = a := by
  cases a <;> simp [JNum.add]

theorem usedList_nil (props : PropList) : usedList [] props = [] := rfl

theorem usedList_cons (c : Criterion) (l : List Criterion) (props : PropList) :
    usedList (c :: l) props =
      if hasValue props c then c :: usedList l props else usedList l props := by
  simp [usedList, List.filter_cons]

theorem weightedSum_nil (props : PropList) : weightedSum props [] = JNum.val 0 := rfl

theorem weightedSum_cons (props : PropList) (c : Criterion) (l : List Criterion) :
    weightedSum props (c :: l) =
      ((contribOf props c).mulQ c.weight).add (weightedSum props l) := rfl

theorem weightSum_nil : weightSum [] = 0 := rfl

theorem weightSum_cons (c : Criterion) (l : List Criterion) :
    weightSum (c :: l) = c.weight + weightSum l := by
  simp [weightSum]

/-- Characterization of the numeric scoring accumulator: the fold over all
active criteria equals the specification-side sums taken over the criteria
that had an observation. -/
theorem foldl_stepNum_eq (props : PropList) :
    ∀ (l : List Criterion) (acc : ScoreAcc),
      l.foldl (stepNum props) acc =
        ⟨acc.totalScore.add (weightedSum props (usedList l props)),
         acc.totalWeight + weightSum (usedList l props),
         acc.usedCriteria + (usedList l props).length⟩ := by
  intro l
  induction l with
  | nil =>
      intro acc
      simp [usedList_nil, weightedSum_nil, weightSum_nil, JNum.add_valzero]
  | cons c t ih =>
      intro acc
      rw [List.foldl_cons, ih, usedList_cons]
      by_cases h : hasValue props c = true
      · have hstep : stepNum props acc c =
            ⟨acc.totalScore.add ((contribOf props c).mulQ c.weight),
             acc.totalWeight + c.weight, acc.usedCriteria + 1⟩ := by
          unfold stepNum
          rcases hv : props.lookup c.id with _ | v
          · unfold hasValue at h; rw [hv] at h; simp at h
          · cases v
            · simp [contribOf, hv]
            · simp [contribOf, hv]
            · unfold hasValue at h; rw [hv] at h; simp at h
        rw [hstep]
        simp only [h, if_true, weightedSum_cons, weightSum_cons, List.length_cons,
          ScoreAcc.mk.injEq]
        refine ⟨?_, by ring, by omega⟩
        rw [JNum.add_assoc]
      · have hstep : stepNum props acc c = acc := by
          unfold stepNum
          rcases hv : props.lookup c.id with _ | v
          · rfl
          · cases v
            · exfalso; unfold hasValue at h; rw [hv] at h; simp at h
            · exfalso; unfold hasValue at h; rw [hv] at h; simp at h
            · rfl
        rw [hstep]
        simp [h]

section UpdateFold

variable {α κ ε : Type} [DecidableEq κ]

/-- Generic model of writing obj[key a] = value a in a loop over a list:
both the criteriaScores object, the scores object and the
ratingsByZipcode object are built this way. -/
def updFold (keyf : α → κ) (valf : α → ε) (l : List α) (acc : κ → Option ε) :
    κ → Option ε :=
  l.foldl (fun m a => fun x => if x = keyf a then some (valf a) else m x) acc

theorem find?_eq_head?_filter (p : α → Bool) :
    ∀ l : List α, l.find? p = (l.filter p).head? := by
  intro l
  induction l with
  | nil => rfl
  | cons a t ih =>
      by_cases h : p a = true
      · rw [List.find?_cons_of_pos t h, List.filter_cons_of_pos h]
        rfl
      · have h2 : ¬ p a := by simpa using h
        rw [List.find?_cons_of_neg t h2, List.filter_cons_of_neg h2, ih]

theorem updFold_eq_find (keyf : α → κ) (valf : α → ε) :
    ∀ (l : List α) (acc : κ → Option ε) (x : κ),
      updFold keyf valf l acc x =
        match l.reverse.find? (fun a => decide (keyf a = x)) with
        | some a => some (valf a)
        | none => acc x := by
  intro l
  induction l with
  | nil => intro acc x; rfl
  | cons a t ih =>
      intro acc x
      have hstep : updFold keyf valf (a :: t) acc =
          updFold keyf valf t (fun y => if y = keyf a then some (valf a) else acc y) := rfl
      rw [hstep, ih]
      have hrev : (a :: t).reverse = t.reverse ++ [a] := by simp
      rw [hrev, List.find?_append]
      rcases hf : t.reverse.find? (fun b => decide (keyf b = x)) with _ | b
      · show (if x = keyf a then some (valf a) else acc x) =
          match Option.or none (List.find? (fun b => decide (keyf b = x)) [a]) with
          | some c => some (valf c)
          | none => acc x
        rw [List.find?_singleton]
        by_cases hx : keyf a = x
        · rw [if_pos hx.symm]
          simp [hx]
        · have hx2 : ¬ (x = keyf a) := fun h2 => hx h2.symm
          rw [if_neg hx2]
          simp [hx]
      · simp

theorem filter_keyeq_unique (keyf : α → κ) {l : List α} {a : α} {x : κ}
    (hnd : (l.map keyf).Nodup) (ha : a ∈ l) (hx : keyf a = x) :
    l.filter (fun b => decide (keyf b = x)) = [a] := by
  induction l with
  | nil => cases ha
  | cons c t ih =>
      rw [List.map_cons, List.nodup_cons] at hnd
      rcases List.mem_cons.mp ha with rfl | hat
      · have hnil : t.filter (fun b => decide (keyf b = x)) = [] := by
          rw [List.filter_eq_nil_iff]
          intro b hb
          simp only [decide_eq_true_eq]
          intro hbx
          apply hnd.1
          have hm : keyf b ∈ List.map keyf t := List.mem_map_of_mem keyf hb
          rwa [hbx, ← hx] at hm
        rw [List.filter_cons, hnil]
        simp [hx]
      · have hc : ¬ (keyf c = x) := by
          intro hcx
          apply hnd.1
          have hm : keyf a ∈ List.map keyf t := List.mem_map_of_mem keyf hat
          rwa [hx, ← hcx] at hm
        rw [List.filter_cons]
        have hcf : (decide (keyf c = x)) = false := by simp [hc]
        rw [hcf]
        simp only [Bool.false_eq_true, if_false]
        exact ih hnd.2 hat

theorem updFold_apply_unique (keyf : α → κ) (valf : α → ε) {l : List α} {a : α} {x : κ}
    (hnd : (l.map keyf).Nodup) (ha : a ∈ l) (hx : keyf a = x)
    (acc : κ → Option ε) :
    updFold keyf valf l acc x = some (valf a) := by
  rw [updFold_eq_find, find?_eq_head?_filter, List.filter_reverse,
    filter_keyeq_unique keyf hnd ha hx]
  rfl

theorem updFold_apply_absent (keyf : α → κ) (valf : α → ε) {l : List α} {x : κ}
    (hab : ∀ a ∈ l, keyf a ≠ x) (acc : κ → Option ε) :
    updFold keyf valf l acc x = acc x := by
  rw [updFold_eq_find, find?_eq_head?_filter, List.filter_reverse]
  have hnil : l.filter (fun b => decide (keyf b = x)) = [] := by
    rw [List.filter_eq_nil_iff]
    intro b hb
    simp only [decide_eq_true_eq]
    exact hab b hb
  rw [hnil]
  rfl

theorem updFold_perm (keyf : α → κ) (valf : α → ε) {l₁ l₂ : List α}
    (hp : l₁.Perm l₂) (hnd : (l₁.map keyf).Nodup) (acc : κ → Option ε) (x : κ) :
    updFold keyf valf l₁ acc x = updFold keyf valf l₂ acc x := by
  rw [updFold_eq_find, updFold_eq_find, find?_eq_head?_filter, find?_eq_head?_filter,
    List.filter_reverse, List.filter_reverse]
  have hpf : (l₁.filter (fun b => decide (keyf b = x))).Perm
      (l₂.filter (fun b => decide (keyf b = x))) := hp.filter _
  rcases hf : l₁.filter (fun b => decide (keyf b = x)) with _ | ⟨a, s⟩
  · rw [hf] at hpf
    have h2 : l₂.filter (fun b => decide (keyf b = x)) = [] :=
      List.Perm.eq_nil hpf.symm
    rw [h2]
  · have hm : a ∈ l₁.filter (fun b => decide (keyf b = x)) := by
      rw [hf]; exact List.mem_cons_self a s
    have ha : a ∈ l₁ ∧ (keyf a = x) := by
      have h3 := List.mem_filter.mp hm
      exact ⟨h3.1, by simpa using h3.2⟩
    have h1 : l₁.filter (fun b => decide (keyf b = x)) = [a] :=
      filter_keyeq_unique keyf hnd ha.1 ha.2
    have hs : a :: s = [a] := by rw [← hf, h1]
    have h2 : l₂.filter (fun b => decide (keyf b = x)) = [a] := by
      rw [h1] at hpf
      exact List.perm_singleton.mp hpf.symm
    rw [hs, h2]

end UpdateFold

/-- The criteriaScores object built by the scoring loop is the generic
keyed update fold over the criterion ids. -/
theorem foldl_stepBrk_eq_updFold (props : PropList) (active : List Criterion)
    (m : String → Option CritEntry) :
    active.foldl (stepBrk props) m =
      updFold (fun c => c.id) (entryOf props) active m := rfl

/-- The scores object built by the outer features loop is the generic
keyed update fold over the keyed features. -/
theorem foldl_scoreStepFeature_eq (active : List Criterion) :
    ∀ (features : List Feature) (acc : JVal → Option ZipScore),
      features.foldl (scoreStepFeature active) acc =
        updFold Prod.fst (fun pr => scoreUnit active pr.2) (keyedFeatures features) acc := by
  intro features
  induction features with
  | nil => intro acc; rfl
  | cons f t ih =>
      intro acc
      rcases f with ⟨op⟩
      rcases op with _ | props
      · rw [List.foldl_cons]
        have h1 : scoreStepFeature active acc (Feature.mk none) = acc := rfl
        have h2 : keyedFeatures (Feature.mk none :: t) = keyedFeatures t := rfl
        rw [h1, h2, ih]
      · rw [List.foldl_cons]
        rcases hz : zipKey props with _ | z
        · have h1 : scoreStepFeature active acc (Feature.mk (some props)) = acc := by
            simp only [scoreStepFeature, hz]
          have h2 : keyedFeatures (Feature.mk (some props) :: t) = keyedFeatures t := by
            unfold keyedFeatures
            rw [List.filterMap_cons]
            simp only [hz]
          rw [h1, h2, ih]
        · have h1 : scoreStepFeature active acc (Feature.mk (some props)) =
              fun x => if x = z then some (scoreUnit active props) else acc x := by
            simp only [scoreStepFeature, hz]
          have h2 : keyedFeatures (Feature.mk (some props) :: t) =
              (z, props) :: keyedFeatures t := by
            unfold keyedFeatures
            rw [List.filterMap_cons]
            simp only [hz]
          rw [h1, h2, ih]
          rfl

/-- Closed form of the per-unit score: branch on the weight sum of the
criteria that had data, with the weighted-average formula in the positive
branch and the sentinel in the other. -/
theorem scoreUnit_eq (active : List Criterion) (props : PropList) :
    scoreUnit active props =
      if 0 < weightSum (usedList active props) then
        { finalScore := (weightedSum props (usedList active props)).divQ
            (weightSum (usedList active props))
          criteriaScores := updFold (fun c => c.id) (entryOf props) active (fun _ => none)
          totalCriteria := active.length
          usedCriteria := (usedList active props).length
          hasError := false }
      else
        { finalScore := JNum.val 0
          criteriaScores := updFold (fun c => c.id) (entryOf props) active (fun _ => none)
          totalCriteria := active.length
          usedCriteria := 0
          hasError := true } := by
  unfold scoreUnit
  rw [foldl_stepNum_eq]
  simp only [JNum.valzero_add, zero_add, Nat.zero_add]
  rfl

/-- The criteriaScores component of the per-unit score, independent of the
weight-sum branch. -/
theorem scoreUnit_criteriaScores (active : List Criterion) (props : PropList) :
    (scoreUnit active props).criteriaScores =
      updFold (fun c => c.id) (entryOf props) active (fun _ => none) := by
  rw [scoreUnit_eq]
  split
  · rfl
  · rfl

theorem entryOf_of_missing (props : PropList) (c : Criterion)
    (h : hasValue props c = false) : entryOf props c = CritEntry.missing := by
  unfold entryOf
  rcases hv : props.lookup c.id with _ | v
  · rfl
  · cases v
    · exfalso; unfold hasValue at h; rw [hv] at h; simp at h
    · exfalso; unfold hasValue at h; rw [hv] at h; simp at h
    · rfl

theorem entryOf_of_value (props : PropList) (c : Criterion) (v : JVal)
    (hv : props.lookup c.id = some v) (hnn : v ≠ JVal.null) :
    entryOf props c = CritEntry.used v c.invert (contribScore c v) c.weight := by
  unfold entryOf
  rw [hv]
  cases v
  · rfl
  · rfl
  · exact absurd rfl hnn

theorem weightedSum_perm (props : PropList) {l₁ l₂ : List Criterion}
    (h : l₁.Perm l₂) : weightedSum props l₁ = weightedSum props l₂ := by
  induction h with
  | nil => rfl
  | cons c _ ih => rw [weightedSum_cons, weightedSum_cons, ih]
  | swap c d t =>
      rw [weightedSum_cons, weightedSum_cons, weightedSum_cons, weightedSum_cons,
        ← JNum.add_assoc, ← JNum.add_assoc,
        JNum.add_comm ((contribOf props d).mulQ d.weight) ((contribOf props c).mulQ c.weight)]
  | trans _ _ ih1 ih2 => rw [ih1, ih2]

/-- Full permutation invariance of the per-unit score under reordering of
the active criteria (given distinct criterion ids). -/
theorem scoreUnit_perm {active₁ active₂ : List Criterion} (props : PropList)
    (h : active₁.Perm active₂)
    (hids : (active₁.map (fun c => c.id)).Nodup) :
    scoreUnit active₁ props = scoreUnit active₂ props := by
  have hu : (usedList active₁ props).Perm (usedList active₂ props) := h.filter _
  have hW : weightSum (usedList active₁ props) = weightSum (usedList active₂ props) := by
    unfold weightSum
    exact (hu.map (fun c => c.weight)).sum_eq
  have hS : weightedSum props (usedList active₁ props) =
      weightedSum props (usedList active₂ props) := weightedSum_perm props hu
  have hL : (usedList active₁ props).length = (usedList active₂ props).length :=
    hu.length_eq
  have hlen : active₁.length = active₂.length := h.length_eq
  have hbrk : updFold (fun c => c.id) (entryOf props) active₁ (fun _ => none) =
      updFold (fun c => c.id) (entryOf props) active₂ (fun _ => none) :=
    funext fun x => updFold_perm (fun c => c.id) (entryOf props) h hids _ x
  rw [scoreUnit_eq, scoreUnit_eq, hW, hS, hL, hlen, hbrk]

/-- With nonempty active criteria, a feature list containing a feature
with properties and a truthy zipcode key, and no key collisions, the
scores object maps that key to the per-unit score of those properties. -/
theorem calc_apply_unique (criteria : List Criterion) (features : List Feature)
    (props : PropList) (z : JVal)
    (hact : criteria.filter (fun c => c.enabled) ≠ [])
    (hf : Feature.mk (some props) ∈ features)
    (hz : zipKey props = some z)
    (hnd : ((keyedFeatures features).map Prod.fst).Nodup) :
    calculateZipcodeScores criteria features z =
      some (scoreUnit (criteria.filter (fun c => c.enabled)) props) := by
  have hfe : features.isEmpty = false := by
    rcases features with _ | ⟨g, t⟩
    · cases hf
    · rfl
  have hae : (criteria.filter (fun c => c.enabled)).isEmpty = false := by
    rcases hh : criteria.filter (fun c => c.enabled) with _ | ⟨c, t⟩
    · exact absurd hh hact
    · rw [hh]
      rfl
  unfold calculateZipcodeScores
  rw [hfe]
  simp only [Bool.false_eq_true, if_false, hae]
  rw [foldl_scoreStepFeature_eq]
  have hmem : (z, props) ∈ keyedFeatures features := by
    unfold keyedFeatures
    rw [List.mem_filterMap]
    refine ⟨Feature.mk (some props), hf, ?_⟩
    simp only [hz]
  exact updFold_apply_unique Prod.fst _ hnd hmem rfl _

/-- Sample unit with data for two criteria (values 4 and 8). -/
def props94110 : PropList := [("ZIP", JVal.str "94110"), ("a", JVal.num 4), ("b", JVal.num 8)]

/-- Sample feature wrapping props94110. -/
def feat94110 : Feature := Feature.mk (some props94110)

/-- Sample criteria with weights 1 and 3, both enabled. -/
def critsAB : List Criterion := [⟨"a", 1, false, true⟩, ⟨"b", 3, false, true⟩]

/-- Sample criteria list whose only criterion is disabled. -/
def critsDisabled : List Criterion := [⟨"a", 1, false, false⟩]

/-- C1 counterexample: with an empty criteria list (whose enabled subset
is empty, so the weight sum is zero for every unit) the scoring function
produces no entry at all for a unit that is present in the input, instead
of the claimed per-unit sentinel result with usedCriteria = 0. -/
theorem c1_counterexample :
    calculateZipcodeScores [] [feat94110] (JVal.str "94110") = none ∧
    zipKey props94110 = some (JVal.str "94110") ∧
    List.filter (fun c => c.enabled) ([] : List Criterion) = [] := by
  refine ⟨rfl, ?_, rfl⟩
  simp [zipKey, props94110, List.lookup, truthyOpt, jIsTruthy]

/-- C1 (amended): provided at least one criterion is enabled (and weights
are positive, as the data model states), every unit present in the input
with a usable zipcode key receives a result whose finalScore is the
weighted average sum over the enabled criteria that had an observation of
contributed score times weight, divided by the sum of those weights; when
every enabled criterion lacked data the result is the sentinel finalScore
0 with usedCriteria = 0. With an empty enabled set the function instead
returns the empty mapping (see the counterexample). -/
theorem c1_weighted_average (criteria : List Criterion) (features : List Feature)
    (props : PropList) (z : JVal)
    (hact : criteria.filter (fun c => c.enabled) ≠ [])
    (hpos : ∀ c ∈ criteria.filter (fun c => c.enabled), 0 < c.weight)
    (hf : Feature.mk (some props) ∈ features)
    (hz : zipKey props = some z)
    (hnd : ((keyedFeatures features).map Prod.fst).Nodup) :
    ∃ r, calculateZipcodeScores criteria features z = some r ∧
      (usedList (criteria.filter (fun c => c.enabled)) props ≠ [] →
        r.finalScore =
          (weightedSum props (usedList (criteria.filter (fun c => c.enabled)) props)).divQ
            (weightSum (usedList (criteria.filter (fun c => c.enabled)) props)) ∧
        r.usedCriteria = (usedList (criteria.filter (fun c => c.enabled)) props).length ∧
        r.hasError = false) ∧
      (usedList (criteria.filter (fun c => c.enabled)) props = [] →
        r.finalScore = JNum.val 0 ∧ r.usedCriteria = 0 ∧ r.hasError = true) := by
  refine ⟨scoreUnit (criteria.filter (fun c => c.enabled)) props,
    calc_apply_unique criteria features props z hact hf hz hnd, ?_, ?_⟩
  · intro hu
    have hpos2 : 0 < weightSum (usedList (criteria.filter (fun c => c.enabled)) props) := by
      unfold weightSum
      apply List.sum_pos
      · intro a ha
        rcases List.mem_map.mp ha with ⟨c, hc, rfl⟩
        exact hpos c (List.mem_filter.mp hc).1
      · intro hmap
        exact hu (List.map_eq_nil_iff.mp hmap)
    rw [scoreUnit_eq, if_pos hpos2]
    exact ⟨rfl, rfl, rfl⟩
  · intro hu
    have hz2 : ¬ (0 < weightSum (usedList (criteria.filter (fun c => c.enabled)) props)) := by
      rw [hu, weightSum_nil]
      exact lt_irrefl 0
    rw [scoreUnit_eq, if_neg hz2]
    exact ⟨rfl, rfl, rfl⟩

/-- Witness for C1 at the spec example: weights 1 and 3, values 4 and 8,
both present. -/
theorem c1_witness :
    ∃ r, calculateZipcodeScores critsAB [feat94110] (JVal.str "94110") = some r ∧
      (usedList (critsAB.filter (fun c => c.enabled)) props94110 ≠ [] →
        r.finalScore =
          (weightedSum props94110 (usedList (critsAB.filter (fun c => c.enabled)) props94110)).divQ
            (weightSum (usedList (critsAB.filter (fun c => c.enabled)) props94110)) ∧
        r.usedCriteria = (usedList (critsAB.filter (fun c => c.enabled)) props94110).length ∧
        r.hasError = false) ∧
      (usedList (critsAB.filter (fun c => c.enabled)) props94110 = [] →
        r.finalScore = JNum.val 0 ∧ r.usedCriteria = 0 ∧ r.hasError = true) := by
  apply c1_weighted_average
  · intro h
    simp [critsAB] at h
  · intro c hc
    have hc2 : c ∈ critsAB := (List.mem_filter.mp hc).1
    simp only [critsAB, List.mem_cons, List.mem_singleton] at hc2
    rcases hc2 with rfl | rfl | h
    · norm_num
    · norm_num
    · cases h
  · exact List.mem_singleton_self feat94110
  · simp [zipKey, props94110, List.lookup, truthyOpt, jIsTruthy]
  · simp [keyedFeatures, feat94110, props94110, zipKey, List.lookup, truthyOpt, jIsTruthy]

/-- C3 counterexample: with a criteria list whose enabled subset is empty,
a unit present in the input receives no result entry at all, instead of
the claimed sentinel finalScore with usedCriteria = 0. -/
theorem c3_counterexample :
    calculateZipcodeScores critsDisabled [feat94110] (JVal.str "94110") = none ∧
    critsDisabled.filter (fun c => c.enabled) = [] :=
  ⟨rfl, rfl⟩

/-- C3 (amended): calling the scoring function with a criteria list whose
enabled subset is empty is not an error: it returns the empty scores
mapping, for every feature list and every stored content, so no unit
receives any entry (in particular no per-unit sentinel record). -/
theorem c3_empty_criteria (criteria : List Criterion) (features : List Feature) (z : JVal)
    (hact : criteria.filter (fun c => c.enabled) = []) :
    calculateZipcodeScores criteria features z = none := by
  unfold calculateZipcodeScores
  by_cases hfe : features.isEmpty
  · rw [if_pos hfe]
  · rw [if_neg hfe]
    simp only [hact]
    rfl

/-- Witness for C3: a disabled criterion over two features, evaluated at a
concrete key. -/
theorem c3_witness :
    calculateZipcodeScores critsDisabled [feat94110, Feature.mk none] (JVal.str "99999") = none :=
  c3_empty_criteria critsDisabled [feat94110, Feature.mk none] (JVal.str "99999") rfl

/-- C2: a criterion without a usable observation contributes nothing: the
finalScore and usedCriteria of a unit equal those computed from only the
criteria that had data, and (with distinct criterion ids) the skipped
criterion is marked not used in the breakdown. -/
theorem c2_missing_skipped (active : List Criterion) (props : PropList) :
    (scoreUnit active props).finalScore = (scoreUnit (usedList active props) props).finalScore ∧
    (scoreUnit active props).usedCriteria = (scoreUnit (usedList active props) props).usedCriteria ∧
    (∀ c ∈ active, hasValue props c = false →
      (active.map (fun c => c.id)).Nodup →
      (scoreUnit active props).criteriaScores c.id = some CritEntry.missing) := by
  have hself : usedList (usedList active props) props = usedList active props := by
    unfold usedList
    apply List.filter_eq_self.mpr
    intro b hb
    exact (List.mem_filter.mp hb).2
  refine ⟨?_, ?_, ?_⟩
  · rw [scoreUnit_eq, scoreUnit_eq, hself]
    split
    · rfl
    · rfl
  · rw [scoreUnit_eq, scoreUnit_eq, hself]
    split
    · simp only
    · rfl
  · intro c hc hmiss hnd
    rw [scoreUnit_criteriaScores,
      updFold_apply_unique (fun c => c.id) (entryOf props) hnd hc rfl,
      entryOf_of_missing props c hmiss]

/-- Sample unit for C2 with data only for criterion a (value 6). -/
def propsC2 : PropList := [("ZIP", JVal.str "94103"), ("a", JVal.num 6)]

/-- Sample criteria for C2: a (weight 2) has data, b (weight 3) does not. -/
def critsC2 : List Criterion := [⟨"a", 2, false, true⟩, ⟨"b", 3, false, true⟩]

/-- Witness for C2: with one of two enabled criteria missing, finalScore
equals the contributed value of the present criterion alone and the
missing criterion is flagged unused. -/
theorem c2_witness :
    (scoreUnit critsC2 propsC2).finalScore = JNum.val 6 ∧
    (scoreUnit critsC2 propsC2).usedCriteria = 1 ∧
    (scoreUnit critsC2 propsC2).criteriaScores "b" = some CritEntry.missing := by
  have h := c2_missing_skipped critsC2 propsC2
  have hu : usedList critsC2 propsC2 = [⟨"a", 2, false, true⟩] := by
    simp [usedList, critsC2, List.filter, hasValue, propsC2, List.lookup]
  refine ⟨?_, ?_, ?_⟩
  · rw [h.1, hu]
    simp [scoreUnit, stepNum, propsC2, List.lookup, contribScore, parseFloatJ,
      JNum.add, JNum.mulQ, JNum.divQ]
  · rw [h.2.1, hu]
    simp [scoreUnit, stepNum, propsC2, List.lookup]
  · exact h.2.2 ⟨"b", 3, false, true⟩ (by simp [critsC2])
      (by simp [hasValue, propsC2, List.lookup]) (by simp [critsC2])

/-- C4: for a criterion whose observed raw value is the number q, the
contributed score recorded in the breakdown is 10 - q when invert is set
(with the fixed scale maximum 10) and q unchanged otherwise, together with
the original value, the invert flag and the weight. -/
theorem c4_invert_contribution (active : List Criterion) (props : PropList)
    (c : Criterion) (q : ℚ)
    (hmem : c ∈ active) (hnd : (active.map (fun c => c.id)).Nodup)
    (hv : props.lookup c.id = some (JVal.num q)) :
    (scoreUnit active props).criteriaScores c.id =
      some (CritEntry.used (JVal.num q) c.invert
        (if c.invert then JNum.val (10 - q) else JNum.val q) c.weight) := by
  rw [scoreUnit_criteriaScores,
    updFold_apply_unique (fun c => c.id) (entryOf props) hnd hmem rfl,
    entryOf_of_value props c (JVal.num q) hv (by intro h; cases h)]
  have hcs : contribScore c (JVal.num q) =
      if c.invert then JNum.val (10 - q) else JNum.val q := by
    unfold contribScore parseFloatJ
    cases hi : c.invert
    · simp
    · simp [JNum.sub]
  rw [hcs]

/-- Sample unit for C4 with an observed value 3 for criterion s. -/
def propsC4 : PropList := [("ZIP", JVal.str "94608"), ("s", JVal.num 3)]

/-- Sample inverted criterion for C4. -/
def critC4 : Criterion := ⟨"s", 1, true, true⟩

/-- Witness for C4: an inverted criterion with observed value 3
contributes 7. -/
theorem c4_witness :
    (scoreUnit [critC4] propsC4).criteriaScores "s" =
      some (CritEntry.used (JVal.num 3) true (JNum.val 7) 1) := by
  have h := c4_invert_contribution [critC4] propsC4 critC4 3
    (List.mem_singleton_self critC4) (by simp [critC4])
    (by simp [critC4, propsC4, List.lookup])
  simp only [critC4, if_true] at h
  norm_num at h
  exact h

/-- Sample unit for C6 with data for criterion a (value 10) and no data
for criterion b. -/
def propsC6 : PropList := [("ZIP", JVal.str "94110"), ("a", JVal.num 10)]

/-- Sample criteria for C6, both enabled with weight 1. -/
def critsC6 : List Criterion := [⟨"a", 1, false, true⟩, ⟨"b", 1, false, true⟩]

/-- C6: the two fallback policies are inequivalent: on a unit with value
10 for one of two unit-weight criteria and no data for the other, the
primary path (skip the missing criterion) yields 10 while the applyFixes
path (substitute the midpoint 5) yields 15/2. -/
theorem c6_policies_differ :
    (calculateZipcodeScores critsC6 [Feature.mk (some propsC6)] (JVal.str "94110")).map
        (fun r => r.finalScore) = some (JNum.val 10) ∧
    calculateZipcodeScoresFixed critsC6 [Feature.mk (some propsC6)] (JVal.str "94110") =
        some ((15 : ℚ) / 2) ∧
    (10 : ℚ) ≠ (15 : ℚ) / 2 := by
  refine ⟨?_, ?_, by norm_num⟩
  · simp [calculateZipcodeScores, scoreStepFeature, zipKey, propsC6, List.lookup,
      truthyOpt, jIsTruthy, scoreUnit, critsC6, stepNum, contribScore, parseFloatJ,
      JNum.add, JNum.mulQ, JNum.divQ, List.filter]
  · simp [calculateZipcodeScoresFixed, zipKey, propsC6, List.lookup, truthyOpt,
      jIsTruthy, fixedScoreUnit, critsC6, fixedStepNum, fixedCritValue, parseFloatOpt,
      parseFloatJ, List.filter]
    norm_num

/-- Sample unit for C10 whose value for criterion a is the non-numeric
string abc. -/
def propsC10 : PropList := [("ZIP", JVal.str "94107"), ("a", JVal.str "abc"), ("b", JVal.num 8)]

/-- Sample criteria for C10, both enabled with weight 1. -/
def critsC10 : List Criterion := [⟨"a", 1, false, true⟩, ⟨"b", 1, false, true⟩]

/-- C10: a present but non-numeric stored value is neither skipped nor
rejected: parseFloat yields NaN, the criterion still counts as used (its
weight enters the weight sum, so usedCriteria = 2), and the finalScore of
the unit is NaN, which is not an error, not the sentinel 0, and not the
value 8 of the remaining criterion. -/
theorem c10_nan_counted :
    (calculateZipcodeScores critsC10 [Feature.mk (some propsC10)] (JVal.str "94107")).map
        (fun r => (r.finalScore, r.usedCriteria, r.hasError)) =
      some (JNum.nan, 2, false) ∧
    (calculateZipcodeScores critsC10 [Feature.mk (some propsC10)] (JVal.str "94107")).map
        (fun r => r.criteriaScores "a") =
      some (some (CritEntry.used (JVal.str "abc") false JNum.nan 1)) ∧
    JNum.nan ≠ JNum.val 0 ∧ JNum.nan ≠ JNum.val 8 := by
  refine ⟨?_, ?_, ?_, ?_⟩
  · simp [calculateZipcodeScores, scoreStepFeature, zipKey, propsC10, List.lookup,
      truthyOpt, jIsTruthy, scoreUnit, critsC10, stepNum, contribScore, parseFloatJ,
      parseFloatStr, digitsVal, List.dropWhile, List.takeWhile,
      JNum.add, JNum.mulQ, JNum.divQ, List.filter]
  · simp [calculateZipcodeScores, scoreStepFeature, zipKey, propsC10, List.lookup,
      truthyOpt, jIsTruthy, scoreUnit, stepNum, stepBrk, entryOf, critsC10,
      contribScore, parseFloatJ, parseFloatStr, digitsVal, List.dropWhile,
      List.takeWhile, JNum.add, JNum.mulQ, JNum.divQ, List.filter]
  · intro h; cases h
  · intro h; cases h

/-- C9: the scoring computation is a pure function of its inputs (so two
runs on the same inputs agree definitionally), and its output is
independent of the order of the feature list (given distinct zipcode
keys, as guaranteed by the zip primary key) and of the order of the
criteria list (given distinct criterion ids). -/
theorem c9_order_independence (criteria₁ criteria₂ : List Criterion)
    (features₁ features₂ : List Feature)
    (hc : criteria₁.Perm criteria₂) (hf : features₁.Perm features₂)
    (hkeys : ((keyedFeatures features₁).map Prod.fst).Nodup)
    (hids : ((criteria₁.filter (fun c => c.enabled)).map (fun c => c.id)).Nodup)
    (z : JVal) :
    calculateZipcodeScores criteria₁ features₁ z =
      calculateZipcodeScores criteria₂ features₂ z := by
  have hactp : (criteria₁.filter (fun c => c.enabled)).Perm
      (criteria₂.filter (fun c => c.enabled)) := hc.filter _
  unfold calculateZipcodeScores
  by_cases hfe : features₁.isEmpty
  · have h1 : features₁ = [] := List.isEmpty_iff.mp hfe
    have h2 : features₂ = [] := (h1 ▸ hf).symm.eq_nil
    rw [h1, h2]
    rfl
  · have hne2 : features₂.isEmpty = false := by
      rcases h2 : features₂ with _ | ⟨g, t⟩
      · rw [h2] at hf
        exact absurd (List.isEmpty_iff.mpr hf.eq_nil) hfe
      · rfl
    have hne1 : features₁.isEmpty = false := by
      rcases h1 : features₁ with _ | ⟨g, t⟩
      · exact absurd (h1 ▸ rfl) hfe
      · rfl
    rw [hne1, hne2]
    simp only [Bool.false_eq_true, if_false]
    by_cases hae : (criteria₁.filter (fun c => c.enabled)).isEmpty
    · have h1 : criteria₁.filter (fun c => c.enabled) = [] := List.isEmpty_iff.mp hae
      have h2 : criteria₂.filter (fun c => c.enabled) = [] := (h1 ▸ hactp).symm.eq_nil
      rw [h1, h2]
      rfl
    · have h2e : (criteria₂.filter (fun c => c.enabled)).isEmpty = false := by
        rcases h2 : criteria₂.filter (fun c => c.enabled) with _ | ⟨d, t⟩
        · rw [h2] at hactp
          exact absurd (List.isEmpty_iff.mpr hactp.eq_nil) hae
        · rw [h2]
          rfl
      have h1e : (criteria₁.filter (fun c => c.enabled)).isEmpty = false := by
        rcases h1 : criteria₁.filter (fun c => c.enabled) with _ | ⟨d, t⟩
        · exact absurd (List.isEmpty_iff.mpr h1) hae
        · rw [h1]
          rfl
      rw [h1e, h2e]
      simp only [Bool.false_eq_true, if_false]
      rw [foldl_scoreStepFeature_eq, foldl_scoreStepFeature_eq]
      have hval : (fun pr : JVal × PropList =>
          scoreUnit (criteria₁.filter (fun c => c.enabled)) pr.2) =
          (fun pr : JVal × PropList =>
          scoreUnit (criteria₂.filter (fun c => c.enabled)) pr.2) :=
        funext fun pr => scoreUnit_perm pr.2 hactp hids
      rw [← hval]
      exact updFold_perm Prod.fst _ (hf.filterMap _) hkeys _ z

/-- Witness for C9: reversing both the two-feature list and the
two-criteria list leaves the score of a concrete unit unchanged. -/
theorem c9_witness :
    calculateZipcodeScores critsAB [feat94110, Feature.mk (some propsC2)] (JVal.str "94110") =
      calculateZipcodeScores [⟨"b", 3, false, true⟩, ⟨"a", 1, false, true⟩]
        [Feature.mk (some propsC2), feat94110] (JVal.str "94110") := by
  apply c9_order_independence
  · exact List.Perm.swap _ _ _
  · exact List.Perm.swap _ _ _
  · simp [keyedFeatures, feat94110, props94110, propsC2, zipKey, List.lookup,
      truthyOpt, jIsTruthy]
  · simp [critsAB, List.filter]

/-- A row of the zipcodes table as read by the GeoJSON route (geometry is
an opaque serialized blob). -/
structure ZipRow where
  zip : String
  name : String
  county : String
  state : String
  geom : String
deriving DecidableEq, Repr

/-- A row of the zipcode_ratings table as read by the GeoJSON route
(rating_value is REAL and nullable). -/
structure RatingRow where
  zip : String
  rating_type : String
  rating_value : JVal
deriving DecidableEq, Repr

/-- The ratingsByZipcode object of the GeoJSON route: the nested
per-zipcode object is modeled as a single map keyed by the
(zip, rating_type) pair, assigned row by row in row order. -/
def ratingsByZipcode (rows : List RatingRow) : String × String → Option JVal :=
  rows.foldl
    (fun m r => fun p => if p = (r.zip, r.rating_type) then some r.rating_value else m p)
    (fun _ => none)

/-- The JavaScript expression x || null applied to a possibly-undefined
rating value: a falsy present value is replaced by null just like an
absent one. -/
def jsOrNull (o : Option JVal) : JVal :=
  match o with
  | some v => if jIsTruthy v then v else JVal.null
  | none => JVal.null

/-- The properties object of one GeoJSON feature produced by the route. -/
structure GeoFeatureProps where
  ZIP : String
  NAME : String
  county : String
  state : String
  schoolRating : JVal
  crimeRate : JVal
  nicheRating : JVal
  commuteTime : JVal
  neighborhoodRating : JVal
deriving DecidableEq, Repr

/-- Build the properties of one feature from a zipcodes row and the
ratings map, as the route does (each advertised rating with || null). -/
def buildFeatureProps (ratings : String × String → Option JVal) (row : ZipRow) :
    GeoFeatureProps :=
  { ZIP := row.zip
    NAME := row.name
    county := row.county
    state := row.state
    schoolRating := jsOrNull (ratings (row.zip, "schoolRating"))
    crimeRate := jsOrNull (ratings (row.zip, "crimeRate"))
    nicheRating := jsOrNull (ratings (row.zip, "nicheRating"))
    commuteTime := jsOrNull (ratings (row.zip, "commuteTime"))
    neighborhoodRating := jsOrNull (ratings (row.zip, "neighborhoodRating")) }

/-- The GeoJSON feature query of api/server.js: 404 error when the
zipcodes table is empty, otherwise one feature per zipcodes row with the
five advertised rating kinds as properties. -/
def zipcodesGeojson (zipRows : List ZipRow) (ratingRows : List RatingRow) :
    Except String (List GeoFeatureProps) :=
  if zipRows.isEmpty then
    Except.error "No zipcode data found. Please run the data loader script."
  else
    Except.ok (zipRows.map (buildFeatureProps (ratingsByZipcode ratingRows)))

/-- The five advertised rating kinds of the GeoJSON route. -/
def advertisedKinds : List String :=
  ["schoolRating", "crimeRate", "nicheRating", "commuteTime", "neighborhoodRating"]

/-- Select the property of an advertised rating kind from a feature. -/
def propOfKind (p : GeoFeatureProps) (k : String) : JVal :=
  if k = "schoolRating" then p.schoolRating
  else if k = "crimeRate" then p.crimeRate
  else if k = "nicheRating" then p.nicheRating
  else if k = "commuteTime" then p.commuteTime
  else if k = "neighborhoodRating" then p.neighborhoodRating
  else JVal.null

theorem ratingsByZipcode_eq_updFold (rows : List RatingRow) :
    ratingsByZipcode rows =
      updFold (fun r => (r.zip, r.rating_type)) (fun r => r.rating_value) rows
        (fun _ => none) := rfl

theorem propOfKind_build (ratings : String × String → Option JVal) (row : ZipRow)
    (k : String) (hk : k ∈ advertisedKinds) :
    propOfKind (buildFeatureProps ratings row) k = jsOrNull (ratings (row.zip, k)) := by
  simp only [advertisedKinds, List.mem_cons, List.mem_singleton] at hk
  rcases hk with rfl | rfl | rfl | rfl | rfl | h
  · rfl
  · rfl
  · rfl
  · rfl
  · rfl
  · cases h

/-- Sample zipcodes row for C7. -/
def zipRowC7 : ZipRow := ⟨"94110", "Mission", "San Francisco", "CA", "geom"⟩

/-- Sample rating row for C7 whose stored value is the number 0. -/
def ratingRowC7 : RatingRow := ⟨"94110", "schoolRating", JVal.num 0⟩

/-- C7 counterexample: a stored observation value 0 for an advertised kind
is replaced by the null marker in the feature properties (the route uses
the JavaScript || operator, and 0 is falsy), contradicting the claim that
no stored value is replaced by the marker. -/
theorem c7_counterexample :
    (zipcodesGeojson [zipRowC7] [ratingRowC7]).toOption.map
        (fun fs => fs.map (fun p => p.schoolRating)) = some [JVal.null] ∧
    ratingRowC7.rating_value = JVal.num 0 ∧
    JVal.null ≠ JVal.num 0 := by
  refine ⟨?_, rfl, by intro h; cases h⟩
  simp [zipcodesGeojson, zipRowC7, ratingRowC7, buildFeatureProps, ratingsByZipcode,
    jsOrNull, jIsTruthy]
  exact ⟨_, rfl, rfl⟩

/-- C7 (amended): for every geographic unit, each advertised rating kind
appears in the unit feature with the stored observation value when one
exists and is truthy, and with the null marker when the observation is
absent; however a present falsy stored value (0, or a SQL NULL) is also
replaced by the null marker, because the route uses the JavaScript ||
operator. -/
theorem c7_geojson_ratings (zipRows : List ZipRow) (ratingRows : List RatingRow)
    (zr : ZipRow) (k : String)
    (hz : zr ∈ zipRows) (hk : k ∈ advertisedKinds)
    (hnd : (ratingRows.map (fun r => (r.zip, r.rating_type))).Nodup) :
    ∃ fs, zipcodesGeojson zipRows ratingRows = Except.ok fs ∧
      ∃ p, p ∈ fs ∧ p.ZIP = zr.zip ∧
        (∀ r ∈ ratingRows, r.zip = zr.zip → r.rating_type = k →
          (jIsTruthy r.rating_value = true → propOfKind p k = r.rating_value) ∧
          (jIsTruthy r.rating_value = false → propOfKind p k = JVal.null)) ∧
        ((∀ r ∈ ratingRows, ¬ (r.zip = zr.zip ∧ r.rating_type = k)) →
          propOfKind p k = JVal.null) := by
  have hne : zipRows.isEmpty = false := by
    rcases zipRows with _ | ⟨a, t⟩
    · cases hz
    · rfl
  refine ⟨zipRows.map (buildFeatureProps (ratingsByZipcode ratingRows)), ?_, ?_⟩
  · unfold zipcodesGeojson
    rw [hne]
    rfl
  refine ⟨buildFeatureProps (ratingsByZipcode ratingRows) zr,
    List.mem_map_of_mem _ hz, rfl, ?_, ?_⟩
  · intro r hr hrz hrk
    have hkey : (fun r : RatingRow => (r.zip, r.rating_type)) r = (zr.zip, k) := by
      simp only [hrz, hrk]
    have hval : ratingsByZipcode ratingRows (zr.zip, k) = some r.rating_value := by
      rw [ratingsByZipcode_eq_updFold]
      exact updFold_apply_unique _ _ hnd hr hkey _
    rw [propOfKind_build _ _ _ hk, hval]
    constructor
    · intro ht
      simp [jsOrNull, ht]
    · intro ht
      simp [jsOrNull, ht]
  · intro hab
    have hval : ratingsByZipcode ratingRows (zr.zip, k) = none := by
      rw [ratingsByZipcode_eq_updFold]
      apply updFold_apply_absent
      intro r hr
      intro hkey
      apply hab r hr
      have h1 : r.zip = zr.zip := congrArg Prod.fst hkey
      have h2 : r.rating_type = k := congrArg Prod.snd hkey
      exact ⟨h1, h2⟩
    rw [propOfKind_build _ _ _ hk, hval]
    rfl

/-- Sample rating row for the C7 witness with a truthy stored value. -/
def ratingRowC7b : RatingRow := ⟨"94110", "crimeRate", JVal.num 3⟩

/-- Witness for C7: a truthy stored crimeRate value 3 appears unchanged,
and an absent nicheRating appears as null. -/
theorem c7_witness :
    (∃ fs, zipcodesGeojson [zipRowC7] [ratingRowC7b] = Except.ok fs ∧
      ∃ p, p ∈ fs ∧ p.ZIP = zipRowC7.zip ∧
        (∀ r ∈ [ratingRowC7b], r.zip = zipRowC7.zip → r.rating_type = "crimeRate" →
          (jIsTruthy r.rating_value = true → propOfKind p "crimeRate" = r.rating_value) ∧
          (jIsTruthy r.rating_value = false → propOfKind p "crimeRate" = JVal.null)) ∧
        ((∀ r ∈ [ratingRowC7b], ¬ (r.zip = zipRowC7.zip ∧ r.rating_type = "crimeRate")) →
          propOfKind p "crimeRate" = JVal.null)) ∧
    (∃ fs, zipcodesGeojson [zipRowC7] [ratingRowC7b] = Except.ok fs ∧
      ∃ p, p ∈ fs ∧ p.ZIP = zipRowC7.zip ∧
        (∀ r ∈ [ratingRowC7b], r.zip = zipRowC7.zip → r.rating_type = "nicheRating" →
          (jIsTruthy r.rating_value = true → propOfKind p "nicheRating" = r.rating_value) ∧
          (jIsTruthy r.rating_value = false → propOfKind p "nicheRating" = JVal.null)) ∧
        ((∀ r ∈ [ratingRowC7b], ¬ (r.zip = zipRowC7.zip ∧ r.rating_type = "nicheRating")) →
          propOfKind p "nicheRating" = JVal.null)) := by
  constructor
  · exact c7_geojson_ratings [zipRowC7] [ratingRowC7b] zipRowC7 "crimeRate"
      (List.mem_singleton_self zipRowC7) (by simp [advertisedKinds])
      (by simp [ratingRowC7b])
  · exact c7_geojson_ratings [zipRowC7] [ratingRowC7b] zipRowC7 "nicheRating"
      (List.mem_singleton_self zipRowC7) (by simp [advertisedKinds])
      (by simp [ratingRowC7b])

/-- A stored observation (value, confidence, provenance); timestamps are
not needed by the claims. -/
structure Observation where
  value : ℚ
  confidence : ℚ
  source : String
deriving DecidableEq, Repr

/-- The RatingStore state: the zipcode_ratings table as an association
list keyed by the (unit key, rating kind) composite, which the schema
makes unique through idx_zipcode_ratings_zip_type. -/
abbrev RatingStore := List ((String × String) × Observation)

/-- Modelled from the spec: the upsert routine of the RatingStore (the
ingestion code that writes zipcode_ratings lives in the python collectors,
which are not under src; the schema declares the unique composite index
idx_zipcode_ratings_zip_type on (zip, rating_type)). Rejects a confidence
outside the interval from 0 to 1 with a ValidationError, replaces the
existing row for the composite key when one exists, and inserts a new row
otherwise. -/
def upsert (store : RatingStore) (unitKey ratingKind : String)
    (value confidence : ℚ) (source : String) : Except String RatingStore :=
  if confidence < 0 ∨ 1 < confidence then Except.error "ValidationError"
  else
    let obs : Observation := ⟨value, confidence, source⟩
    if (store.lookup (unitKey, ratingKind)).isSome then
      Except.ok (store.map fun e =>
        if e.1 = (unitKey, ratingKind) then ((unitKey, ratingKind), obs) else e)
    else
      Except.ok (store ++ [((unitKey, ratingKind), obs)])

/-- Modelled from the spec: getAll returns the mapping from rating kind to
observation for one unit (an empty mapping for unknown units). -/
def getAll (store : RatingStore) (unitKey : String) : List (String × Observation) :=
  store.filterMap fun e =>
    if e.1.1 = unitKey then some (e.1.2, e.2) else none

theorem lookup_getAll (u k : String) :
    ∀ store : RatingStore, (getAll store u).lookup k = store.lookup (u, k) := by
  intro store
  induction store with
  | nil => rfl
  | cons e t ih =>
      rcases e with ⟨⟨u2, k2⟩, o⟩
      by_cases hu : u2 = u
      · have hg : getAll (((u2, k2), o) :: t) u = (k2, o) :: getAll t u := by
          unfold getAll
          rw [List.filterMap_cons]
          simp [hu]
        rw [hg]
        by_cases hk : k2 = k
        · subst hu; subst hk
          simp [List.lookup]
        · have hb : (k == k2) = false := by
            rw [beq_eq_false_iff_ne]
            exact Ne.symm hk
          have hb2 : ((u, k) == ((u2, k2) : String × String)) = false := by
            rw [beq_eq_false_iff_ne]
            intro h
            exact hk (congrArg Prod.snd h).symm
          simp only [List.lookup, hb, hb2]
          exact ih
      · have hg : getAll (((u2, k2), o) :: t) u = getAll t u := by
          unfold getAll
          rw [List.filterMap_cons]
          simp [hu]
        rw [hg]
        have hb2 : ((u, k) == ((u2, k2) : String × String)) = false := by
          rw [beq_eq_false_iff_ne]
          intro h
          exact hu (congrArg Prod.fst h).symm
        simp only [List.lookup, hb2]
        exact ih

theorem lookup_map_replace (u k : String) (obs : Observation) :
    ∀ store : RatingStore, (store.lookup (u, k)).isSome →
      (store.map fun e =>
        if e.1 = (u, k) then ((u, k), obs) else e).lookup (u, k) = some obs := by
  intro store
  induction store with
  | nil => intro h; cases h
  | cons e t ih =>
      intro hs
      rcases e with ⟨p, o⟩
      by_cases hp : p = (u, k)
      · rw [List.map_cons]
        simp only [hp, if_true]
        simp [List.lookup]
      · rw [List.map_cons]
        simp only [hp, if_false]
        have hb : (((u, k) : String × String) == p) = false := by
          rw [beq_eq_false_iff_ne]
          intro h
          exact hp h.symm
        simp only [List.lookup, hb]
        apply ih
        simp only [List.lookup, hb] at hs
        exact hs

theorem lookup_none_not_mem_keys (p : String × String) :
    ∀ store : RatingStore, store.lookup p = none → p ∉ store.map Prod.fst := by
  intro store
  induction store with
  | nil => intro _ h; cases h
  | cons e t ih =>
      intro hl hm
      rcases e with ⟨q, o⟩
      by_cases hq : p = q
      · subst hq
        simp [List.lookup] at hl
      · have hb : (p == q) = false := by simp [hq]
        simp only [List.lookup, hb] at hl
        rw [List.map_cons, List.mem_cons] at hm
        rcases hm with h | h
        · exact hq h
        · exact ih hl h

theorem lookup_append_single (p : String × String) (obs : Observation) :
    ∀ store : RatingStore, store.lookup p = none →
      (store ++ [(p, obs)]).lookup p = some obs := by
  intro store
  induction store with
  | nil =>
      intro _
      simp [List.lookup]
  | cons e t ih =>
      intro hl
      rcases e with ⟨q, o⟩
      by_cases hq : p = q
      · subst hq
        simp [List.lookup] at hl
      · have hb : (p == q) = false := by simp [hq]
        simp only [List.lookup, hb] at hl
        rw [List.cons_append]
        simp only [List.lookup, hb]
        exact ih hl

/-- C5 (spec-modelled): a valid upsert preserves the at-most-one-row
invariant for the (unit key, rating kind) composite key and replaces any
prior observation, so reading the unit afterwards returns exactly the new
value, confidence and source for that kind; a write never appends a
second row for the same pair. -/
theorem c5_upsert_replaces (store : RatingStore) (u k : String)
    (v conf : ℚ) (src : String)
    (h0 : 0 ≤ conf) (h1 : conf ≤ 1) (hnd : (store.map Prod.fst).Nodup) :
    ∃ s, upsert store u k v conf src = Except.ok s ∧
      (s.map Prod.fst).Nodup ∧
      (getAll s u).lookup k = some ⟨v, conf, src⟩ := by
  have hvalid : ¬ (conf < 0 ∨ 1 < conf) := by
    push_neg
    exact ⟨h0, h1⟩
  unfold upsert
  rw [if_neg hvalid]
  by_cases hs : (store.lookup (u, k)).isSome
  · rw [if_pos hs]
    refine ⟨_, rfl, ?_, ?_⟩
    · have hkeys : (store.map fun e =>
          if e.1 = (u, k) then ((u, k), (⟨v, conf, src⟩ : Observation)) else e).map Prod.fst =
          store.map Prod.fst := by
        rw [List.map_map]
        apply List.map_congr_left
        intro e _
        by_cases he : e.1 = (u, k)
        · simp [he]
        · simp [he]
      rw [hkeys]
      exact hnd
    · rw [lookup_getAll]
      exact lookup_map_replace u k _ store hs
  · rw [if_neg hs]
    refine ⟨_, rfl, ?_, ?_⟩
    · rw [List.map_append]
      rw [List.nodup_append]
      refine ⟨hnd, by simp, ?_⟩
      intro p hp hq
      simp only [List.map_cons, List.map_nil, List.mem_singleton] at hq
      subst hq
      exact lookup_none_not_mem_keys (u, k) store
        (Option.not_isSome_iff_eq_none.mp hs) hp
    · rw [lookup_getAll]
      exact lookup_append_single (u, k) _ store (Option.not_isSome_iff_eq_none.mp hs)

/-- Sample store for the C5 witness with a prior observation for the
(94110, schoolRating) pair. -/
def storeC5 : RatingStore := [(("94110", "schoolRating"), ⟨7, 9/10, "greatschools"⟩)]

/-- Witness for C5: overwriting the existing (94110, schoolRating) row
with a new observation. -/
theorem c5_witness :
    ∃ s, upsert storeC5 "94110" "schoolRating" 8 (1/2) "cde" = Except.ok s ∧
      (s.map Prod.fst).Nodup ∧
      (getAll s "94110").lookup "schoolRating" = some ⟨8, 1/2, "cde"⟩ :=
  c5_upsert_replaces storeC5 "94110" "schoolRating" 8 (1/2) "cde"
    (by norm_num) (by norm_num) (by simp [storeC5])

/-- Modelled from the spec: one DataSource record of the data_sources
table (timestamps idealized as naturals). -/
structure SourceRec where
  lastUpdated : Option ℕ
  nextUpdate : Option ℕ
  updateFrequency : ℕ
deriving DecidableEq, Repr

/-- Modelled from the spec: forceAll deletes every DataSource record
(force-update.sh runs DELETE FROM data_sources), making every source
equivalent to never run. -/
def forceAll (_records : List (String × SourceRec)) : List (String × SourceRec) := []

/-- Modelled from the spec: a source is due when it has no DataSource
record (never run), or its nextUpdate is null, or its nextUpdate is at or
before now. -/
def isDue (records : List (String × SourceRec)) (now : ℕ) (name : String) : Bool :=
  match records.lookup name with
  | none => true
  | some r =>
      match r.nextUpdate with
      | none => true
      | some t => t ≤ now

/-- Modelled from the spec: tick selects and runs every registered source
that is due, in registration order (the per-source ingestion calls and the
record updates they trigger are external to the claim). -/
def tick (registered : List String) (records : List (String × SourceRec)) (now : ℕ) :
    List String :=
  registered.filter (fun s => isDue records now s)

/-- C8 (spec-modelled): after forceAll deletes every DataSource record,
the next tick selects and runs every registered source, and (with the
registry free of duplicates) each exactly once, regardless of the
nextUpdate values the records held before the call. -/
theorem c8_forceall_runs_all (registered : List String)
    (records : List (String × SourceRec)) (now : ℕ)
    (hnd : registered.Nodup) :
    tick registered (forceAll records) now = registered ∧
    ∀ s ∈ registered, (tick registered (forceAll records) now).count s = 1 := by
  have hall : tick registered (forceAll records) now = registered := by
    unfold tick forceAll isDue
    apply List.filter_eq_self.mpr
    intro s _
    rfl
  refine ⟨hall, ?_⟩
  intro s hs
  rw [hall]
  exact List.count_eq_one_of_mem hnd hs

/-- Sample scheduler records for the C8 witness: both sources have a
nextUpdate far in the future. -/
def recordsC8 : List (String × SourceRec) :=
  [("census", ⟨some 100, some 1000000, 604800⟩),
   ("crime", ⟨some 200, some 2000000, 604800⟩)]

/-- Witness for C8: after forceAll, a tick at time 300 runs both
registered sources exactly once although neither was due. -/
theorem c8_witness :
    tick ["census", "crime"] (forceAll recordsC8) 300 = ["census", "crime"] ∧
    ∀ s ∈ ["census", "crime"],
      (tick ["census", "crime"] (forceAll recordsC8) 300).count s = 1 :=
  c8_forceall_runs_all ["census", "crime"] recordsC8 300 (by simp)

end Housing
